import Mathlib

/-!
A Lean model of the TC Memory Server knowledge store: the retention
lifecycle engine of `src/db.ts` (memory-type classifier, retention scorer,
upsert-by-natural-key, merge, prune, search fallback) together with the
input validation of the exposed entry points (the `save_knowledge` tool
schema and the `/api/save` REST route of `src/index.ts`).

Modelling conventions:
* Strings are Lean `String`s; JavaScript `toLowerCase` and SQL `ILIKE`
  are modelled on the ASCII range (every literal the code compares
  against is ASCII).
* SQL `REAL` / JS numbers are modelled as `ℚ` where the code only
  stores, copies or compares them, and as `ℝ` inside the retention
  scorer, which uses `EXP` and `LN`.
* Timestamps are rationals (epoch seconds); `NOW()` is an explicit
  `now` argument threaded through each operation.
* The `tc_memory.knowledge` table is a list of rows plus the next
  `SERIAL` id; SQL `UPDATE ... WHERE id = x` updates every row whose id
  matches, `DELETE ... WHERE id = x` removes every such row, and
  `SELECT ... LIMIT 1` without `ORDER BY` is refined to "first match in
  list order".
-/

/-- ASCII lowercasing of one character, as JS `toLowerCase` and SQL
`ILIKE` act on the ASCII range. -/
def lowerChar (c : Char) : Char :=
  if 65 ≤ c.toNat ∧ c.toNat ≤ 90 then Char.ofNat (c.toNat + 32) else c

/-- Lowercase a character list. -/
def lowerL (l : List Char) : List Char := l.map lowerChar

/-- Lowercase a string (JS `s.toLowerCase()`), ASCII range. -/
def lowerStr (s : String) : String := String.mk (lowerL s.data)

/-- `needle` occurs as a contiguous substring of `hay`
(JS `String.includes`, SQL `LIKE '%needle%'`). -/
def isSubstr (needle : List Char) : List Char → Bool
  | [] => needle.isEmpty
  | c :: t => needle.isPrefixOf (c :: t) || isSubstr needle t

/-- The four decay classes of `db.ts` (`MemoryType`). -/
inductive MemoryType
  | core
  | architecture
  | pattern
  | decision
deriving DecidableEq, Repr

/-- `classifyMemoryType` from `db.ts`: lowercase the topic and the tags,
then run four ordered rule sets, first match wins. -/
def classifyMemoryType (topic : String) (tags : List String) : MemoryType :=
  let t := lowerL topic.data
  let allTags := tags.map lowerStr
  if isSubstr "agent-rules".data t || isSubstr "sheet-ids".data t ||
      isSubstr "api-key".data t || isSubstr "credentials".data t ||
      isSubstr "deployment-id".data t || allTags.contains "core" then
    .core
  else if isSubstr "cms-api".data t || isSubstr "gas-webhook".data t ||
      isSubstr "pricing".data t || isSubstr "stripe-api".data t ||
      isSubstr "infrastructure".data t || isSubstr "architecture".data t ||
      isSubstr "invoice-pdf".data t || allTags.contains "architecture" then
    .architecture
  else if allTags.contains "decision" || isSubstr "decision".data t then
    .decision
  else
    .pattern

/-- Case-insensitive substring containment, written from the spec's
"case-insensitive substring matching": both sides are lowercased. -/
def containsCI (hay needle : String) : Bool :=
  isSubstr (lowerL needle.data) (lowerL hay.data)

/-- Case-insensitive tag membership, written from the spec's
"tags contain x". -/
def tagsContainCI (tags : List String) (x : String) : Bool :=
  tags.any (fun tag => lowerStr tag == x)

/-- The classifier as the spec §4.1 words it: four ordered rule sets over
case-insensitive substring/tag matching, first match wins, default
`pattern`. -/
def classifySpec (topic : String) (tags : List String) : MemoryType :=
  if containsCI topic "agent-rules" || containsCI topic "sheet-ids" ||
      containsCI topic "api-key" || containsCI topic "credentials" ||
      containsCI topic "deployment-id" || tagsContainCI tags "core" then
    .core
  else if containsCI topic "cms-api" || containsCI topic "gas-webhook" ||
      containsCI topic "pricing" || containsCI topic "stripe-api" ||
      containsCI topic "infrastructure" || containsCI topic "architecture" ||
      containsCI topic "invoice-pdf" || tagsContainCI tags "architecture" then
    .architecture
  else if tagsContainCI tags "decision" || containsCI topic "decision" then
    .decision
  else
    .pattern

theorem char_ofNat_toNat_shift (n : ℕ) (h1 : 65 ≤ n) (h2 : n ≤ 90) :
    (Char.ofNat (n + 32)).toNat = n + 32 := by
  interval_cases n <;> decide

theorem lowerChar_idem (c : Char) : lowerChar (lowerChar c) = lowerChar c := by
  unfold lowerChar
  by_cases h : 65 ≤ c.toNat ∧ c.toNat ≤ 90
  · rw [if_pos h, char_ofNat_toNat_shift c.toNat h.1 h.2, if_neg (by omega)]
  · rw [if_neg h, if_neg h]

theorem lowerL_idem (l : List Char) : lowerL (lowerL l) = lowerL l := by
  simp [lowerL, List.map_map, Function.comp_def, lowerChar_idem]

theorem lowerStr_idem (s : String) : lowerStr (lowerStr s) = lowerStr s := by
  simp [lowerStr, lowerL_idem]

theorem data_lowerStr (s : String) : (lowerStr s).data = lowerL s.data := rfl

/-- Lowercasing each needle literal used by the classifier is the
identity (they are lowercase ASCII already). -/
theorem classifier_needles_lower :
    lowerL "agent-rules".data = "agent-rules".data ∧
    lowerL "sheet-ids".data = "sheet-ids".data ∧
    lowerL "api-key".data = "api-key".data ∧
    lowerL "credentials".data = "credentials".data ∧
    lowerL "deployment-id".data = "deployment-id".data ∧
    lowerL "cms-api".data = "cms-api".data ∧
    lowerL "gas-webhook".data = "gas-webhook".data ∧
    lowerL "pricing".data = "pricing".data ∧
    lowerL "stripe-api".data = "stripe-api".data ∧
    lowerL "infrastructure".data = "infrastructure".data ∧
    lowerL "architecture".data = "architecture".data ∧
    lowerL "invoice-pdf".data = "invoice-pdf".data ∧
    lowerL "decision".data = "decision".data := by
  refine ⟨?_, ?_, ?_, ?_, ?_, ?_, ?_, ?_, ?_, ?_, ?_, ?_, ?_⟩ <;> decide

theorem contains_map_lowerStr (tags : List String) (x : String) :
    (tags.map lowerStr).contains x = tags.any (fun tag => lowerStr tag == x) := by
  induction tags with
  | nil => rfl
  | cons a t ih =>
      simp only [List.map_cons, List.contains_cons, List.any_cons, ih]
      rw [BEq.comm]

theorem classifyMemoryType_eq_spec (topic : String) (tags : List String) :
    classifyMemoryType topic tags = classifySpec topic tags := by
  obtain ⟨h1, h2, h3, h4, h5, h6, h7, h8, h9, h10, h11, h12, h13⟩ :=
    classifier_needles_lower
  simp only [classifyMemoryType, classifySpec, containsCI, tagsContainCI,
    h1, h2, h3, h4, h5, h6, h7, h8, h9, h10, h11, h12, h13,
    contains_map_lowerStr]

theorem classifyMemoryType_case_insensitive (topic : String) (tags : List String) :
    classifyMemoryType (lowerStr topic) (tags.map lowerStr) =
      classifyMemoryType topic tags := by
  have ht : lowerL (lowerStr topic).data = lowerL topic.data := by
    rw [data_lowerStr, lowerL_idem]
  have htags : (tags.map lowerStr).map lowerStr = tags.map lowerStr := by
    simp [List.map_map, Function.comp_def, lowerStr_idem]
  simp only [classifyMemoryType, ht, htags]

/-- **C7.** `classify(topic, tags)` is pure and deterministic (it is a
Lean function), case-insensitive (invariant under lowercasing its
inputs), and computes exactly the four ordered rule sets of the spec
with first match winning; in particular a save with tags `["core"]`
classifies as `core` even though the topic alone would classify as
`pattern`. -/
theorem C7_classifier_correct :
    (∀ topic tags, classifyMemoryType topic tags = classifySpec topic tags) ∧
    (∀ topic tags,
      classifyMemoryType (lowerStr topic) (tags.map lowerStr) =
        classifyMemoryType topic tags) ∧
    classifyMemoryType "stripe-config" ["core"] = .core ∧
    classifyMemoryType "stripe-config" [] = .pattern ∧
    classifyMemoryType "Stripe-Config" ["CORE"] = .core :=
  ⟨classifyMemoryType_eq_spec, classifyMemoryType_case_insensitive,
    by decide, by decide, by decide⟩

/-- One row of `tc_memory.knowledge` (`KnowledgeRow` in `db.ts`).
`REAL`/timestamp columns are rationals, `last_accessed` is nullable. -/
structure KnowledgeRow where
  id : ℕ
  topic : String
  content : String
  source : String
  user_id : String
  tags : List String
  confidence : ℚ
  access_count : ℕ
  last_accessed : Option ℚ
  memory_type : MemoryType
  created_at : ℚ
  updated_at : ℚ
deriving DecidableEq, Repr

/-- The table plus the next value of the `SERIAL` id sequence. -/
structure Store where
  rows : List KnowledgeRow
  nextId : ℕ
deriving DecidableEq, Repr

/-- The invariants `SERIAL PRIMARY KEY` maintains: ids are distinct and
below the sequence counter. -/
def Store.WF (s : Store) : Prop :=
  (s.rows.map KnowledgeRow.id).Nodup ∧ ∀ r ∈ s.rows, r.id < s.nextId

instance (s : Store) : Decidable s.WF := by
  unfold Store.WF; infer_instance

/-- The natural-key predicate of the duplicate check in `saveKnowledge`:
`WHERE topic = $1 AND source = $2 AND content = $3`. -/
def matchesTriple (topic source content : String) (r : KnowledgeRow) : Bool :=
  r.topic == topic && r.source == source && r.content == content

/-- The `SELECT id ... LIMIT 1` duplicate-check phase of `saveKnowledge`,
as its own step so that interleavings of concurrent saves can be
expressed. -/
def saveLookup (topic content source : String) (s : Store) : Option ℕ :=
  (s.rows.find? (matchesTriple topic source content)).map KnowledgeRow.id


/-- The field update of `saveKnowledge`'s `UPDATE` statement:
`SET content, tags, confidence, user_id, memory_type, updated_at`. -/
def applySaveUpdate (content : String) (tags : List String)
    (confidence : ℚ) (userId : String) (resolvedType : MemoryType)
    (now : ℚ) (q : KnowledgeRow) : KnowledgeRow :=
  { q with content := content, tags := tags, confidence := confidence,
           user_id := userId, memory_type := resolvedType,
           updated_at := now }

/-- The row built by `saveKnowledge`'s `INSERT` with the column defaults
`access_count = 0`, `last_accessed = NULL`,
`created_at = updated_at = NOW()`. -/
def newSaveRow (topic content source : String) (tags : List String)
    (confidence : ℚ) (userId : String) (resolvedType : MemoryType)
    (now : ℚ) (i : ℕ) : KnowledgeRow :=
  { id := i, topic := topic, content := content, source := source,
    user_id := userId, tags := tags, confidence := confidence,
    access_count := 0, last_accessed := none, memory_type := resolvedType,
    created_at := now, updated_at := now }

/-- The write phase of `saveKnowledge`: `UPDATE ... WHERE id = $6` when
the duplicate check found a row, otherwise `INSERT ... RETURNING id`. -/
def saveWrite (topic content source : String) (tags : List String)
    (confidence : ℚ) (userId : String) (memoryType : Option MemoryType)
    (now : ℚ) (found : Option ℕ) (s : Store) : ℕ × Store :=
  let resolvedType := memoryType.getD (classifyMemoryType topic tags)
  match found with
  | some i =>
      (i, { s with rows := s.rows.map (fun q =>
        if q.id = i then
          applySaveUpdate content tags confidence userId resolvedType now q
        else q) })
  | none =>
      (s.nextId,
        { rows := s.rows ++ [newSaveRow topic content source tags
            confidence userId resolvedType now s.nextId],
          nextId := s.nextId + 1 })

/-- `saveKnowledge` from `db.ts`: duplicate check by natural key
`(topic, source, content)`, then update-in-place or insert. -/
def saveKnowledge (topic content source : String) (tags : List String)
    (confidence : ℚ) (userId : String) (memoryType : Option MemoryType)
    (now : ℚ) (s : Store) : ℕ × Store :=
  saveWrite topic content source tags confidence userId memoryType now
    (saveLookup topic content source s) s

theorem applySaveUpdate_id (content : String) (tags : List String)
    (confidence : ℚ) (userId : String) (resolvedType : MemoryType)
    (now : ℚ) (q : KnowledgeRow) :
    (applySaveUpdate content tags confidence userId resolvedType now q).id
      = q.id := rfl

theorem find?_map_update (p : KnowledgeRow → Bool)
    (f : KnowledgeRow → KnowledgeRow) (r0 : KnowledgeRow)
    (l : List KnowledgeRow) (hnd : (l.map KnowledgeRow.id).Nodup)
    (h0 : l.find? p = some r0) (hp : p (f r0) = true) :
    (l.map (fun q => if q.id = r0.id then f q else q)).find? p = some (f r0) := by
  induction l with
  | nil => simp at h0
  | cons a t ih =>
      simp only [List.map_cons, List.nodup_cons] at hnd
      rcases hpa : p a with hfalse | htrue
      · rw [List.find?_cons_of_neg _ (by simp [hpa])] at h0
        have hmem : r0 ∈ t := List.mem_of_find?_eq_some h0
        have hne : a.id ≠ r0.id := by
          intro he
          exact hnd.1 (he ▸ List.mem_map_of_mem KnowledgeRow.id hmem)
        simp only [List.map_cons, if_neg hne]
        rw [List.find?_cons_of_neg _ (by simp [hpa])]
        exact ih hnd.2 h0
      · rw [List.find?_cons_of_pos _ hpa] at h0
        obtain rfl : a = r0 := by injection h0
        rw [List.map_cons, if_pos rfl, List.find?_cons_of_pos _ hp]

/-- After any `saveKnowledge` call on a well-formed store, the first row
matching the natural key is the saved row: it carries the returned id,
the call's tags, confidence, user, resolved memory type and content, and
`updated_at = NOW()`. -/
theorem saveKnowledge_first_match (topic content source : String)
    (tags : List String) (confidence : ℚ) (userId : String)
    (memoryType : Option MemoryType) (now : ℚ) (s : Store) (hWF : s.WF) :
    ∃ r, ((saveKnowledge topic content source tags confidence userId
        memoryType now s).2.rows.find? (matchesTriple topic source content))
        = some r ∧
      r.id = (saveKnowledge topic content source tags confidence userId
        memoryType now s).1 ∧
      r.topic = topic ∧ r.source = source ∧ r.content = content ∧
      r.tags = tags ∧ r.confidence = confidence ∧ r.user_id = userId ∧
      r.memory_type = memoryType.getD (classifyMemoryType topic tags) ∧
      r.updated_at = now := by
  rcases hfind : s.rows.find? (matchesTriple topic source content) with _ | r0
  · simp only [saveKnowledge, saveLookup, hfind, Option.map_none', saveWrite]
    refine ⟨newSaveRow topic content source tags confidence userId
      (memoryType.getD (classifyMemoryType topic tags)) now s.nextId,
      ?_, rfl, rfl, rfl, rfl, rfl, rfl, rfl, rfl, rfl⟩
    rw [List.find?_append, hfind, Option.none_or]
    rw [List.find?_cons_of_pos _ (by simp [matchesTriple, newSaveRow])]
  · have hprops := List.find?_some hfind
    simp only [matchesTriple, Bool.and_eq_true, beq_iff_eq] at hprops
    obtain ⟨⟨ht, hs⟩, hc⟩ := hprops
    simp only [saveKnowledge, saveLookup, hfind, Option.map_some', saveWrite]
    refine ⟨applySaveUpdate content tags confidence userId
      (memoryType.getD (classifyMemoryType topic tags)) now r0,
      ?_, rfl, ht, hs, rfl, rfl, rfl, rfl, rfl, rfl⟩
    exact find?_map_update _ _ r0 s.rows hWF.1 hfind
      (by simp [matchesTriple, applySaveUpdate, ht, hs])

/-- `saveKnowledge` preserves the `SERIAL PRIMARY KEY` invariants. -/
theorem saveKnowledge_WF (topic content source : String) (tags : List String)
    (confidence : ℚ) (userId : String) (memoryType : Option MemoryType)
    (now : ℚ) (s : Store) (hWF : s.WF) :
    (saveKnowledge topic content source tags confidence userId memoryType
      now s).2.WF := by
  obtain ⟨hnd, hlt⟩ := hWF
  rcases hfind : s.rows.find? (matchesTriple topic source content) with _ | r0
  · simp only [saveKnowledge, saveLookup, hfind, Option.map_none', saveWrite,
      Store.WF]
    constructor
    · rw [List.map_append, List.nodup_append]
      refine ⟨hnd, List.nodup_singleton _, ?_⟩
      intro x hx
      simp only [List.mem_map] at hx
      obtain ⟨r, hr, rfl⟩ := hx
      simp only [List.map_cons, List.map_nil, List.mem_singleton, newSaveRow]
      exact fun he => absurd he (Nat.ne_of_lt (hlt r hr))
    · intro r hr
      rcases List.mem_append.mp hr with h | h
      · exact Nat.lt_succ_of_lt (hlt r h)
      · simp only [List.mem_singleton] at h
        subst h
        exact Nat.lt_succ_self _
  · simp only [saveKnowledge, saveLookup, hfind, Option.map_some', saveWrite,
      Store.WF]
    have hids : ((s.rows.map (fun q => if q.id = r0.id then
        applySaveUpdate content tags confidence userId
          (memoryType.getD (classifyMemoryType topic tags)) now q
        else q)).map KnowledgeRow.id) = s.rows.map KnowledgeRow.id := by
      rw [List.map_map]
      refine List.map_congr_left fun q _ => ?_
      by_cases h : q.id = r0.id <;> simp [h, applySaveUpdate_id]
    constructor
    · rw [hids]
      exact hnd
    · intro r hr
      simp only [List.mem_map] at hr
      obtain ⟨q, hq, rfl⟩ := hr
      by_cases h : q.id = r0.id
      · simp only [if_pos h, applySaveUpdate_id]
        exact hlt q hq
      · simp only [if_neg h]
        exact hlt q hq

/-- **C2.** Saving the same `(topic, source, content)` twice returns the
first call's id again instead of inserting (the second call leaves the
row count unchanged), and after the second call the stored entry carries
the second call's tags, confidence, userId and resolved memoryType, with
`updatedAt` refreshed and the id preserved; a save whose natural key is
not present inserts a new row. -/
theorem C2_save_upsert_idempotent (s : Store) (hWF : s.WF)
    (topic content source : String) (tags1 tags2 : List String)
    (conf1 conf2 : ℚ) (u1 u2 : String) (mt1 mt2 : Option MemoryType)
    (n1 n2 : ℚ) :
    (saveKnowledge topic content source tags2 conf2 u2 mt2 n2
        (saveKnowledge topic content source tags1 conf1 u1 mt1 n1 s).2).1
      = (saveKnowledge topic content source tags1 conf1 u1 mt1 n1 s).1 ∧
    (∃ r ∈ (saveKnowledge topic content source tags2 conf2 u2 mt2 n2
        (saveKnowledge topic content source tags1 conf1 u1 mt1 n1 s).2).2.rows,
      r.id = (saveKnowledge topic content source tags1 conf1 u1 mt1 n1 s).1 ∧
      r.tags = tags2 ∧ r.confidence = conf2 ∧ r.user_id = u2 ∧
      r.memory_type = mt2.getD (classifyMemoryType topic tags2) ∧
      r.updated_at = n2 ∧ r.content = content) ∧
    (saveKnowledge topic content source tags2 conf2 u2 mt2 n2
        (saveKnowledge topic content source tags1 conf1 u1 mt1 n1 s).2).2.rows.length
      = (saveKnowledge topic content source tags1 conf1 u1 mt1 n1 s).2.rows.length ∧
    ((∀ r ∈ s.rows, matchesTriple topic source content r = false) →
      (saveKnowledge topic content source tags1 conf1 u1 mt1 n1 s).2.rows.length
        = s.rows.length + 1) := by
  have hWF1 := saveKnowledge_WF topic content source tags1 conf1 u1 mt1 n1 s hWF
  obtain ⟨r1, hfind1, hid1, -, -, -, -, -, -, -, -⟩ :=
    saveKnowledge_first_match topic content source tags1 conf1 u1 mt1 n1 s hWF
  obtain ⟨r2, hfind2, hid2, -, -, -, htags2, hconf2, hu2, hmt2, hupd2⟩ :=
    saveKnowledge_first_match topic content source tags2 conf2 u2 mt2 n2
      (saveKnowledge topic content source tags1 conf1 u1 mt1 n1 s).2 hWF1
  have hcont2 : r2.content = content := by
    have := List.find?_some hfind2
    simp only [matchesTriple, Bool.and_eq_true, beq_iff_eq] at this
    exact this.2
  have hsecond :
      saveKnowledge topic content source tags2 conf2 u2 mt2 n2
        (saveKnowledge topic content source tags1 conf1 u1 mt1 n1 s).2
      = saveWrite topic content source tags2 conf2 u2 mt2 n2 (some r1.id)
        (saveKnowledge topic content source tags1 conf1 u1 mt1 n1 s).2 := by
    rw [saveKnowledge, saveLookup, hfind1, Option.map_some']
  refine ⟨?_, ?_, ?_, ?_⟩
  · rw [hsecond, saveWrite]
    exact hid1
  · exact ⟨r2, List.mem_of_find?_eq_some hfind2,
      by rw [hid2, hsecond, saveWrite]; exact hid1,
      htags2, hconf2, hu2, hmt2, hupd2, hcont2⟩
  · rw [hsecond, saveWrite]
    exact List.length_map _ _
  · intro hnone
    have hfindnone : s.rows.find? (matchesTriple topic source content) = none :=
      List.find?_eq_none.mpr (fun x hx => by simp [hnone x hx])
    rw [saveKnowledge, saveLookup, hfindnone, Option.map_none', saveWrite]
    simp

/-- Witness for C2 on the empty store: two saves of the same triple on
`⟨[], 1⟩` return the same id. -/
theorem C2_save_upsert_idempotent_witness :
    Store.WF ⟨[], 1⟩ ∧
    (saveKnowledge "t" "c" "website" ["x"] 1 "bob" none 1
        (saveKnowledge "t" "c" "website" [] 1 "alice" none 0 ⟨[], 1⟩).2).1
      = (saveKnowledge "t" "c" "website" [] 1 "alice" none 0 ⟨[], 1⟩).1 :=
  ⟨by decide, (C2_save_upsert_idempotent ⟨[], 1⟩ (by decide) "t" "c" "website"
    [] ["x"] 1 1 "alice" "bob" none none 0 1).1⟩

/-- JS `[...new Set(l)]`: deduplicate, keeping first occurrences in
order. -/
def jsSetDedup (l : List String) : List String :=
  l.foldl (fun acc t => if t ∈ acc then acc else acc ++ [t]) []

theorem jsSetDedup_foldl (l acc : List String) (hacc : acc.Nodup) :
    (l.foldl (fun a t => if t ∈ a then a else a ++ [t]) acc).Nodup ∧
    ∀ x, x ∈ l.foldl (fun a t => if t ∈ a then a else a ++ [t]) acc ↔
      x ∈ acc ∨ x ∈ l := by
  induction l generalizing acc with
  | nil => simpa using hacc
  | cons a t ih =>
      simp only [List.foldl_cons]
      by_cases h : a ∈ acc
      · rw [if_pos h]
        obtain ⟨h1, h2⟩ := ih acc hacc
        refine ⟨h1, fun x => ?_⟩
        rw [h2 x]
        constructor
        · rintro (hx | hx)
          · exact Or.inl hx
          · exact Or.inr (List.mem_cons_of_mem a hx)
        · rintro (hx | hx)
          · exact Or.inl hx
          · rcases List.mem_cons.mp hx with rfl | hx
            · exact Or.inl h
            · exact Or.inr hx
      · rw [if_neg h]
        obtain ⟨h1, h2⟩ := ih (acc ++ [a])
          (by
            rw [List.nodup_append]
            refine ⟨hacc, List.nodup_singleton a, ?_⟩
            intro x hx
            simp only [List.mem_singleton]
            intro he
            exact h (he ▸ hx))
        refine ⟨h1, fun x => ?_⟩
        rw [h2 x]
        simp only [List.mem_append, List.mem_singleton, List.mem_cons]
        tauto

theorem jsSetDedup_nodup (l : List String) : (jsSetDedup l).Nodup :=
  (jsSetDedup_foldl l [] (List.nodup_nil)).1

theorem mem_jsSetDedup (l : List String) (x : String) :
    x ∈ jsSetDedup l ↔ x ∈ l := by
  rw [jsSetDedup, (jsSetDedup_foldl l [] List.nodup_nil).2 x]
  simp

/-- The field update `mergeKnowledge` applies to the kept row:
`SET content, tags, access_count, confidence, updated_at`. -/
def applyMergeUpdate (newContent : String) (combinedTags : List String)
    (combinedAccess : ℕ) (higherConfidence : ℚ) (now : ℚ)
    (q : KnowledgeRow) : KnowledgeRow :=
  { q with content := newContent, tags := combinedTags,
           access_count := combinedAccess, confidence := higherConfidence,
           updated_at := now }

/-- `mergeKnowledge` from `db.ts`: inside one transaction, load both rows
by id; if either is missing roll back and return `false`; otherwise
update the kept row with the deduplicated tag union, the summed access
counts, the max confidence and `mergedContent ?? keep.content`, then
delete the other row and commit. -/
def mergeKnowledge (keepId deleteId : ℕ) (mergedContent : Option String)
    (now : ℚ) (s : Store) : Bool × Store :=
  match s.rows.find? (fun r => r.id == keepId),
      s.rows.find? (fun r => r.id == deleteId) with
  | some keep, some del =>
      let combinedTags := jsSetDedup (keep.tags ++ del.tags)
      let combinedAccess := keep.access_count + del.access_count
      let higherConfidence := max keep.confidence del.confidence
      let newContent := mergedContent.getD keep.content
      let updated := s.rows.map (fun q =>
        if q.id = keepId then
          applyMergeUpdate newContent combinedTags combinedAccess
            higherConfidence now q
        else q)
      (true, { s with rows := updated.filter (fun q => q.id != deleteId) })
  | _, _ => (false, s)

/-- On a well-formed store, `find?` by id returns the member row that has
that id. -/
theorem find?_id_of_mem (l : List KnowledgeRow)
    (hnd : (l.map KnowledgeRow.id).Nodup) (r : KnowledgeRow) (hr : r ∈ l)
    (i : ℕ) (hid : r.id = i) :
    l.find? (fun q => q.id == i) = some r := by
  induction l with
  | nil => simp at hr
  | cons a t ih =>
      simp only [List.map_cons, List.nodup_cons] at hnd
      rcases List.mem_cons.mp hr with rfl | hmem
      · rw [List.find?_cons_of_pos _ (by simp [hid])]
      · have hne : a.id ≠ i := by
          intro he
          exact hnd.1 (by
            rw [he, ← hid]
            exact List.mem_map_of_mem KnowledgeRow.id hmem)
        rw [List.find?_cons_of_neg _ (by simp [hne])]
        exact ih hnd.2 hmem

/-- **C4.** `merge` with either id nonexistent reports failure as a
boolean and leaves the store exactly as it was. -/
theorem C4_merge_missing_id_noop (keepId deleteId : ℕ)
    (mergedContent : Option String) (now : ℚ) (s : Store)
    (h : (∀ r ∈ s.rows, r.id ≠ keepId) ∨ (∀ r ∈ s.rows, r.id ≠ deleteId)) :
    mergeKnowledge keepId deleteId mergedContent now s = (false, s) := by
  rcases h with h | h
  · have hk : s.rows.find? (fun r => r.id == keepId) = none :=
      List.find?_eq_none.mpr (fun r hr => by simp [h r hr])
    rcases hd : s.rows.find? (fun r => r.id == deleteId) with _ | d <;>
      simp [mergeKnowledge, hk, hd]
  · have hd : s.rows.find? (fun r => r.id == deleteId) = none :=
      List.find?_eq_none.mpr (fun r hr => by simp [h r hr])
    rcases hk : s.rows.find? (fun r => r.id == keepId) with _ | k <;>
      simp [mergeKnowledge, hk, hd]

/-- A demo row used by concrete witnesses. -/
def mergeRowA : KnowledgeRow :=
  { id := 1, topic := "pricing", content := "old content",
    source := "website", user_id := "alice", tags := ["a", "b"],
    confidence := 1, access_count := 2, last_accessed := none,
    memory_type := .architecture, created_at := 0, updated_at := 0 }

/-- A second demo row used by concrete witnesses. -/
def mergeRowB : KnowledgeRow :=
  { id := 2, topic := "pricing-v2", content := "newer content",
    source := "stripe", user_id := "bob", tags := ["b", "c"],
    confidence := 0, access_count := 3, last_accessed := none,
    memory_type := .pattern, created_at := 0, updated_at := 0 }

/-- Witness for C4: merging with a nonexistent `deleteId` returns
failure and the one-row store is untouched. -/
theorem C4_merge_missing_id_noop_witness :
    (∀ r ∈ ({ rows := [mergeRowA], nextId := 2 } : Store).rows, r.id ≠ 7) ∧
    mergeKnowledge 1 7 none 5 { rows := [mergeRowA], nextId := 2 }
      = (false, { rows := [mergeRowA], nextId := 2 }) :=
  ⟨by decide, C4_merge_missing_id_noop 1 7 none 5
    { rows := [mergeRowA], nextId := 2 } (Or.inr (by decide))⟩

/-- **C3 (amended: `keepId ≠ deleteId`).** A merge of two existing
distinct rows succeeds; afterwards the keep row carries the
deduplicated union of both tag sets, the sum of both access counts, the
max of both confidences, `mergedContent` when supplied (else its prior
content) and a refreshed `updatedAt`, and no row with id `deleteId`
remains. -/
theorem C3_merge_combines (s : Store) (hWF : s.WF) (keepId deleteId : ℕ)
    (hne : keepId ≠ deleteId) (mergedContent : Option String) (now : ℚ)
    (kr : KnowledgeRow) (hkr : kr ∈ s.rows) (hkid : kr.id = keepId)
    (dr : KnowledgeRow) (hdr : dr ∈ s.rows) (hdid : dr.id = deleteId) :
    (mergeKnowledge keepId deleteId mergedContent now s).1 = true ∧
    (∃ r ∈ (mergeKnowledge keepId deleteId mergedContent now s).2.rows,
      r.id = keepId ∧
      (∀ x, x ∈ r.tags ↔ x ∈ kr.tags ∨ x ∈ dr.tags) ∧
      r.tags.Nodup ∧
      r.access_count = kr.access_count + dr.access_count ∧
      r.confidence = max kr.confidence dr.confidence ∧
      r.content = mergedContent.getD kr.content ∧
      r.updated_at = now) ∧
    (∀ r ∈ (mergeKnowledge keepId deleteId mergedContent now s).2.rows,
      r.id ≠ deleteId) := by
  have hfk := find?_id_of_mem s.rows hWF.1 kr hkr keepId hkid
  have hfd := find?_id_of_mem s.rows hWF.1 dr hdr deleteId hdid
  have hfst : (mergeKnowledge keepId deleteId mergedContent now s).1 = true := by
    simp only [mergeKnowledge, hfk, hfd]
  have hrows : (mergeKnowledge keepId deleteId mergedContent now s).2.rows
      = (s.rows.map (fun q => if q.id = keepId then
          applyMergeUpdate (mergedContent.getD kr.content)
            (jsSetDedup (kr.tags ++ dr.tags))
            (kr.access_count + dr.access_count)
            (max kr.confidence dr.confidence) now q
        else q)).filter (fun q => q.id != deleteId) := by
    simp only [mergeKnowledge, hfk, hfd]
  rw [hfst, hrows]
  refine ⟨rfl, ?_, ?_⟩
  · refine ⟨applyMergeUpdate (mergedContent.getD kr.content)
      (jsSetDedup (kr.tags ++ dr.tags))
      (kr.access_count + dr.access_count)
      (max kr.confidence dr.confidence) now kr, ?_, hkid, ?_, ?_,
      rfl, rfl, rfl, rfl⟩
    · refine List.mem_filter.mpr ⟨?_, ?_⟩
      · have := List.mem_map_of_mem (fun q => if q.id = keepId then
          applyMergeUpdate (mergedContent.getD kr.content)
            (jsSetDedup (kr.tags ++ dr.tags))
            (kr.access_count + dr.access_count)
            (max kr.confidence dr.confidence) now q
          else q) hkr
        simpa [hkid] using this
      · simp only [applyMergeUpdate, bne_iff_ne, ne_eq]
        rw [hkid]
        exact hne
    · intro x
      rw [show (applyMergeUpdate (mergedContent.getD kr.content)
          (jsSetDedup (kr.tags ++ dr.tags))
          (kr.access_count + dr.access_count)
          (max kr.confidence dr.confidence) now kr).tags
          = jsSetDedup (kr.tags ++ dr.tags) from rfl,
        mem_jsSetDedup, List.mem_append]
    · exact jsSetDedup_nodup _
  · intro r hr
    have := (List.mem_filter.mp hr).2
    simpa using this

/-- Counterexample to C3 as literally stated: with `keepId = deleteId`
both lookups succeed on the same row, the merge reports success, yet the
final `DELETE ... WHERE id = deleteId` removes the kept row itself, so
no keep row with the claimed properties exists afterwards. -/
theorem C3_counterexample_equal_ids :
    (∃ r ∈ ({ rows := [mergeRowA], nextId := 2 } : Store).rows, r.id = 1) ∧
    (mergeKnowledge 1 1 none 5 { rows := [mergeRowA], nextId := 2 }).1
      = true ∧
    (mergeKnowledge 1 1 none 5 { rows := [mergeRowA], nextId := 2 }).2.rows
      = [] ∧
    ¬ ∃ r ∈ (mergeKnowledge 1 1 none 5
      { rows := [mergeRowA], nextId := 2 }).2.rows, r.id = 1 := by
  refine ⟨⟨mergeRowA, List.mem_cons_self _ _, rfl⟩, rfl, rfl, ?_⟩
  rintro ⟨r, hr, -⟩
  rw [show (mergeKnowledge 1 1 none 5
    { rows := [mergeRowA], nextId := 2 }).2.rows = [] from rfl] at hr
  exact absurd hr (List.not_mem_nil r)

/-- Witness for the amended C3 on a concrete two-row store. -/
theorem C3_merge_combines_witness :
    Store.WF { rows := [mergeRowA, mergeRowB], nextId := 3 } ∧
    (mergeKnowledge 1 2 none 7 { rows := [mergeRowA, mergeRowB], nextId := 3 }).1
      = true :=
  ⟨by decide,
    (C3_merge_combines { rows := [mergeRowA, mergeRowB], nextId := 3 }
      (by decide) 1 2 (by decide) none 7
      mergeRowA (List.mem_cons_self _ _) rfl
      mergeRowB (List.mem_cons_of_mem _ (List.mem_cons_self _ _)) rfl).1⟩

/-- `tc_memory.retention_score` from `db.ts`
(`createRetentionScoreFunction`), with `NOW()` passed explicitly and
timestamps in epoch seconds.  The `ELSE 0.005` arm of the SQL `CASE` is
unreachable for `core` (which returns earlier) but kept for fidelity. -/
noncomputable def retention_score (p_confidence : ℝ) (p_access_count : ℕ)
    (p_last_accessed : Option ℝ) (p_memory_type : MemoryType)
    (p_tags : List String) (p_created_at : ℝ) (now : ℝ) : ℝ :=
  if "protected" ∈ p_tags then 1
  else if p_memory_type = .core then max p_confidence 0.9
  else
    let decay_rate : ℝ :=
      match p_memory_type with
      | .architecture => 0.001
      | .pattern => 0.005
      | .decision => 0.01
      | .core => 0.005
    let days_since_access := (now - p_last_accessed.getD p_created_at) / 86400
    let days_since_created := (now - p_created_at) / 86400
    let importance := p_confidence * Real.exp (-decay_rate * days_since_created)
    let access_freq := min (Real.log (p_access_count + 1) / Real.log 50) 1
    let recency := max (1 - days_since_access / 180) 0
    let score := importance * 0.4 + access_freq * 0.3 + recency * 0.3
    max (min score 1) 0

/-- The retention score as claim C1 words it, over day counts instead of
timestamps: protected tag wins, then core, then
`clamp(0.4*confidence*exp(-decayRate*daysSinceCreated)
+ 0.3*min(ln(accessCount+1)/ln 50, 1)
+ 0.3*max(1 - daysSinceAccess/180, 0), 0, 1)` with `daysSinceAccess`
falling back to `daysSinceCreated` when the entry was never accessed. -/
noncomputable def retentionScoreSpec (confidence : ℝ) (accessCount : ℕ)
    (daysSinceCreated : ℝ) (daysSinceAccessOpt : Option ℝ)
    (memoryType : MemoryType) (tags : List String) : ℝ :=
  if "protected" ∈ tags then 1
  else if memoryType = .core then max confidence 0.9
  else
    let decayRate : ℝ :=
      match memoryType with
      | .architecture => 0.001
      | .pattern => 0.005
      | .decision => 0.01
      | .core => 0.005
    let daysSinceAccess := daysSinceAccessOpt.getD daysSinceCreated
    max 0 (min 1
      (0.4 * (confidence * Real.exp (-decayRate * daysSinceCreated))
        + 0.3 * min (Real.log (accessCount + 1) / Real.log 50) 1
        + 0.3 * max (1 - daysSinceAccess / 180) 0))

/-- **C1.** The retention score is computed exactly by the specified
algorithm (protected ⇒ 1; core ⇒ max(confidence, 0.9); otherwise the
clamped 0.4/0.3/0.3 blend with decay rates 0.001/0.005/0.01 per day and
the never-accessed fallback), and lies in `[0, 1]` whenever confidence
does. -/
theorem C1_retention_score_correct (confidence : ℝ) (accessCount : ℕ)
    (lastAccessed : Option ℝ) (memoryType : MemoryType) (tags : List String)
    (createdAt now : ℝ) (h0 : 0 ≤ confidence) (h1 : confidence ≤ 1) :
    retention_score confidence accessCount lastAccessed memoryType tags
        createdAt now
      = retentionScoreSpec confidence accessCount ((now - createdAt) / 86400)
          (lastAccessed.map (fun t => (now - t) / 86400)) memoryType tags ∧
    0 ≤ retention_score confidence accessCount lastAccessed memoryType tags
        createdAt now ∧
    retention_score confidence accessCount lastAccessed memoryType tags
        createdAt now ≤ 1 := by
  unfold retention_score retentionScoreSpec
  by_cases hp : "protected" ∈ tags
  · simp only [if_pos hp]
    exact ⟨trivial, zero_le_one, le_refl 1⟩
  · by_cases hcore : memoryType = .core
    · simp only [if_neg hp, if_pos hcore]
      refine ⟨trivial, le_max_of_le_right (by norm_num), ?_⟩
      exact max_le h1 (by norm_num)
    · simp only [if_neg hp, if_neg hcore]
      have hdays : (lastAccessed.map (fun t => (now - t) / 86400)).getD
          ((now - createdAt) / 86400)
          = (now - lastAccessed.getD createdAt) / 86400 := by
        cases lastAccessed <;> simp
      refine ⟨?_, le_max_right _ _, max_le (min_le_right _ _) zero_le_one⟩
      rw [hdays, max_comm]
      congr 1
      rw [min_comm]
      congr 1
      ring

/-- Witness for C1 at `confidence = 1`, `accessCount = 0`, never
accessed, `pattern` type, no tags, age zero. -/
theorem C1_retention_score_correct_witness :
    (0 : ℝ) ≤ 1 ∧ (1 : ℝ) ≤ 1 ∧
    (0 ≤ retention_score 1 0 none .pattern [] 0 0 ∧
      retention_score 1 0 none .pattern [] 0 0 ≤ 1) :=
  ⟨zero_le_one, le_refl 1,
    (C1_retention_score_correct 1 0 none .pattern [] 0 0
      zero_le_one (le_refl 1)).2⟩

/-- The retention score of a stored row at time `now`: the SQL call
`tc_memory.retention_score(confidence, access_count, last_accessed,
memory_type, tags, created_at)` used by prune and the health report. -/
noncomputable def scoreOfRow (now : ℝ) (r : KnowledgeRow) : ℝ :=
  retention_score (r.confidence : ℝ) r.access_count
    (r.last_accessed.map (fun q => (q : ℝ))) r.memory_type r.tags
    (r.created_at : ℝ) now

/-- The immunity filter of the prune candidate query:
`WHERE memory_type != 'core' AND NOT (tags && ARRAY['protected'])`. -/
def isPruneCandidate (r : KnowledgeRow) : Bool :=
  r.memory_type != .core && !(r.tags.contains "protected")

/-- The report entries of `pruneStaleEntries` (`PruneResult` in `db.ts`;
the TS code projects each row to `{id, topic, source, score}`, the model
keeps the rows). -/
structure PruneResult where
  deleted : List KnowledgeRow
  flagged : List KnowledgeRow

/-- `pruneStaleEntries` from `db.ts`: select the non-core, non-protected
rows with score `< 0.3`; those with score `< 0.1` are deletion
candidates, those with `0.1 ≤ score < 0.3` are flagged; when `dryRun` is
false and there are deletion candidates, delete them by id in one batch.
The report's `ORDER BY score ASC` only orders the returned lists and is
determined only up to ties; the model keeps table order. -/
noncomputable def pruneStaleEntries (dryRun : Bool) (now : ℝ) (s : Store) :
    PruneResult × Store :=
  let candidates := (s.rows.filter isPruneCandidate).filter
    (fun r => decide (scoreOfRow now r < 0.3))
  let toDelete := candidates.filter (fun r => decide (scoreOfRow now r < 0.1))
  let toFlag := candidates.filter (fun r =>
    decide (0.1 ≤ scoreOfRow now r) && decide (scoreOfRow now r < 0.3))
  let newRows :=
    if dryRun = false ∧ toDelete ≠ [] then
      s.rows.filter (fun r => !((toDelete.map KnowledgeRow.id).contains r.id))
    else s.rows
  (⟨toDelete, toFlag⟩, { s with rows := newRows })

theorem isPruneCandidate_iff (r : KnowledgeRow) :
    isPruneCandidate r = true ↔
      r.memory_type ≠ .core ∧ "protected" ∉ r.tags := by
  simp [isPruneCandidate]

theorem prune_deleted_mem (dryRun : Bool) (now : ℝ) (s : Store)
    (r : KnowledgeRow) :
    r ∈ (pruneStaleEntries dryRun now s).1.deleted ↔
      r ∈ s.rows ∧ r.memory_type ≠ .core ∧ "protected" ∉ r.tags ∧
        scoreOfRow now r < 0.1 := by
  show r ∈ ((s.rows.filter isPruneCandidate).filter
      (fun r => decide (scoreOfRow now r < 0.3))).filter
      (fun r => decide (scoreOfRow now r < 0.1)) ↔ _
  simp only [List.mem_filter, decide_eq_true_eq, isPruneCandidate_iff]
  constructor
  · rintro ⟨⟨⟨hmem, hc⟩, -⟩, h1⟩
    exact ⟨hmem, hc.1, hc.2, h1⟩
  · rintro ⟨hmem, hc1, hc2, h1⟩
    exact ⟨⟨⟨hmem, hc1, hc2⟩, h1.trans (by norm_num)⟩, h1⟩

theorem prune_flagged_mem (dryRun : Bool) (now : ℝ) (s : Store)
    (r : KnowledgeRow) :
    r ∈ (pruneStaleEntries dryRun now s).1.flagged ↔
      r ∈ s.rows ∧ r.memory_type ≠ .core ∧ "protected" ∉ r.tags ∧
        0.1 ≤ scoreOfRow now r ∧ scoreOfRow now r < 0.3 := by
  show r ∈ ((s.rows.filter isPruneCandidate).filter
      (fun r => decide (scoreOfRow now r < 0.3))).filter
      (fun r => decide (0.1 ≤ scoreOfRow now r) &&
        decide (scoreOfRow now r < 0.3)) ↔ _
  simp only [List.mem_filter, Bool.and_eq_true, decide_eq_true_eq,
    isPruneCandidate_iff]
  constructor
  · rintro ⟨⟨⟨hmem, hc⟩, h3⟩, h1, -⟩
    exact ⟨hmem, hc.1, hc.2, h1, h3⟩
  · rintro ⟨hmem, hc1, hc2, h1, h3⟩
    exact ⟨⟨⟨hmem, hc1, hc2⟩, h3⟩, h1, h3⟩

theorem prune_rows_eq (dryRun : Bool) (now : ℝ) (s : Store) :
    (pruneStaleEntries dryRun now s).2.rows =
      if dryRun = false ∧ (pruneStaleEntries dryRun now s).1.deleted ≠ [] then
        s.rows.filter (fun r =>
          !(((pruneStaleEntries dryRun now s).1.deleted.map
            KnowledgeRow.id).contains r.id))
      else s.rows := rfl


theorem Store.ext2 (a b : Store) (h1 : a.rows = b.rows)
    (h2 : a.nextId = b.nextId) : a = b := by
  cases a
  cases b
  cases h1
  cases h2
  rfl

/-- **C5.** `prune(dryRun=true)` deletes nothing; `prune(dryRun=false)`
deletes exactly the non-core, non-protected rows with retention score
below 0.1; candidates with `0.1 ≤ score < 0.3` are reported as flagged
yet remain stored; and core/protected rows never appear among the
scored candidates. -/
theorem C5_prune_correct (s : Store) (now : ℝ) (hWF : s.WF) :
    (pruneStaleEntries true now s).2 = s ∧
    (∀ r, r ∈ (pruneStaleEntries false now s).2.rows ↔
      r ∈ s.rows ∧ ¬(r.memory_type ≠ .core ∧ "protected" ∉ r.tags ∧
        scoreOfRow now r < 0.1)) ∧
    (∀ dryRun r, r ∈ (pruneStaleEntries dryRun now s).1.deleted ↔
      r ∈ s.rows ∧ r.memory_type ≠ .core ∧ "protected" ∉ r.tags ∧
        scoreOfRow now r < 0.1) ∧
    (∀ dryRun r, r ∈ (pruneStaleEntries dryRun now s).1.flagged ↔
      r ∈ s.rows ∧ r.memory_type ≠ .core ∧ "protected" ∉ r.tags ∧
        0.1 ≤ scoreOfRow now r ∧ scoreOfRow now r < 0.3) ∧
    (∀ r ∈ (pruneStaleEntries false now s).1.flagged,
      r ∈ (pruneStaleEntries false now s).2.rows) ∧
    (∀ dryRun r, (r ∈ (pruneStaleEntries dryRun now s).1.deleted ∨
        r ∈ (pruneStaleEntries dryRun now s).1.flagged) →
      r.memory_type ≠ .core ∧ "protected" ∉ r.tags) := by
  have hmain : ∀ r, r ∈ (pruneStaleEntries false now s).2.rows ↔
      r ∈ s.rows ∧ ¬(r.memory_type ≠ .core ∧ "protected" ∉ r.tags ∧
        scoreOfRow now r < 0.1) := by
    intro r
    rw [prune_rows_eq]
    by_cases hD0 : (pruneStaleEntries false now s).1.deleted = []
    · rw [if_neg (by simp [hD0])]
      constructor
      · intro hr
        refine ⟨hr, fun hP => ?_⟩
        have : r ∈ (pruneStaleEntries false now s).1.deleted :=
          (prune_deleted_mem false now s r).mpr ⟨hr, hP⟩
        rw [hD0] at this
        exact absurd this (List.not_mem_nil r)
      · exact fun h => h.1
    · rw [if_pos ⟨rfl, hD0⟩, List.mem_filter]
      constructor
      · rintro ⟨hr, hno⟩
        refine ⟨hr, fun hP => ?_⟩
        have hmem : r ∈ (pruneStaleEntries false now s).1.deleted :=
          (prune_deleted_mem false now s r).mpr ⟨hr, hP⟩
        have hc : (((pruneStaleEntries false now s).1.deleted.map
            KnowledgeRow.id).contains r.id) = true := by
          simp only [List.contains_eq_any_beq, List.any_eq_true]
          exact ⟨r.id, List.mem_map_of_mem _ hmem, by simp⟩
        rw [hc] at hno
        exact absurd hno (by simp)
      · rintro ⟨hr, hnP⟩
        refine ⟨hr, ?_⟩
        have hc : (((pruneStaleEntries false now s).1.deleted.map
            KnowledgeRow.id).contains r.id) = false := by
          simp only [List.contains_eq_any_beq, List.any_eq_false]
          intro x hx
          simp only [List.mem_map] at hx
          obtain ⟨q, hq, rfl⟩ := hx
          have hq2 := (prune_deleted_mem false now s q).mp hq
          simp only [beq_eq_false_iff_ne, ne_eq]
          intro hqr
          have : q = r := List.inj_on_of_nodup_map hWF.1 hq2.1 hr
            ((beq_iff_eq.mp hqr).symm)
          subst this
          exact hnP hq2.2
        rw [hc]
        rfl
  refine ⟨?_, hmain, ?_, ?_, ?_, ?_⟩
  · refine Store.ext2 _ _ ?_ rfl
    rw [prune_rows_eq]
    simp
  · exact fun dryRun r => prune_deleted_mem dryRun now s r
  · exact fun dryRun r => prune_flagged_mem dryRun now s r
  · intro r hr
    have h := (prune_flagged_mem false now s r).mp hr
    exact (hmain r).mpr ⟨h.1, fun hP => absurd hP.2.2 (not_lt.mpr h.2.2.2.1)⟩
  · intro dryRun r hr
    rcases hr with hr | hr
    · have h := (prune_deleted_mem dryRun now s r).mp hr
      exact ⟨h.2.1, h.2.2.1⟩
    · have h := (prune_flagged_mem dryRun now s r).mp hr
      exact ⟨h.2.1, h.2.2.1⟩

/-- Witness for C5 on the empty store: a dry run leaves it untouched. -/
theorem C5_prune_correct_witness :
    Store.WF { rows := [], nextId := 1 } ∧
    (pruneStaleEntries true 0 { rows := [], nextId := 1 }).2
      = { rows := [], nextId := 1 } :=
  ⟨by decide, (C5_prune_correct { rows := [], nextId := 1 } 0 (by decide)).1⟩

/-- `saveKnowledge` is literally the sequential composition of its
duplicate-check phase and its write phase — there is no transaction, no
unique constraint on `(topic, source, content)` in `initDb`/`init.sql`,
and no `ON CONFLICT` on the `INSERT`. -/
theorem saveKnowledge_is_lookup_then_write (topic content source : String)
    (tags : List String) (confidence : ℚ) (userId : String)
    (memoryType : Option MemoryType) (now : ℚ) (s : Store) :
    saveKnowledge topic content source tags confidence userId memoryType
        now s
      = saveWrite topic content source tags confidence userId memoryType
          now (saveLookup topic content source s) s := rfl

/-- **C8.** The upsert is *not* an atomic check-and-set: interleaving two
concurrent saves of the same `(topic, source, content)` on an initially
empty store so that both duplicate-check `SELECT`s run before either
write makes both calls insert, leaving two rows with the same natural
key — the claimed "at most one inserts" fails. -/
theorem C8_save_race_both_insert :
    saveLookup "t" "c" "website" { rows := [], nextId := 1 } = none ∧
    ((saveWrite "t" "c" "website" [] 1 "bob" none 0
        (saveLookup "t" "c" "website" { rows := [], nextId := 1 })
        ((saveWrite "t" "c" "website" [] 1 "alice" none 0
          (saveLookup "t" "c" "website" { rows := [], nextId := 1 })
          { rows := [], nextId := 1 }).2)).2.rows.filter
      (matchesTriple "t" "website" "c")).length = 2 := by
  exact ⟨rfl, rfl⟩

/-- The `VALID_SOURCES` enum of the `save_knowledge` tool schema. -/
def VALID_SOURCES : List String :=
  ["website", "godot-pay", "godot-tablet", "godot-mgmt",
   "gas", "devops", "stripe", "infrastructure", "unknown"]

/-- The zod `inputSchema` of the `save_knowledge` MCP tool as a
predicate: topic 1–100 chars, content 1–2000 chars, source in the enum,
at most 10 tags, confidence in `[0, 1]`, user at most 50 chars (the
memory-type enum is enforced by the `Option MemoryType` type). -/
def validSaveInput (topic content source : String)
    (tags : Option (List String)) (confidence : Option ℚ)
    (user : Option String) : Bool :=
  decide (1 ≤ topic.length) && decide (topic.length ≤ 100) &&
  decide (1 ≤ content.length) && decide (content.length ≤ 2000) &&
  VALID_SOURCES.contains source &&
  (match tags with
    | none => true
    | some l => decide (l.length ≤ 10)) &&
  (match confidence with
    | none => true
    | some c => decide (0 ≤ c) && decide (c ≤ 1)) &&
  (match user with
    | none => true
    | some u => decide (u.length ≤ 50))

/-- The `save_knowledge` MCP tool entry point: the MCP SDK validates the
zod `inputSchema` and reports a validation error to the caller without
running the handler; on success the handler applies the defaults
`tags ?? []`, `confidence ?? 1.0`, `user ?? "unknown"` and calls
`saveKnowledge`. -/
def mcpSaveKnowledge (topic content source : String)
    (tags : Option (List String)) (confidence : Option ℚ)
    (user : Option String) (memoryType : Option MemoryType)
    (now : ℚ) (s : Store) : Except String (ℕ × Store) :=
  if validSaveInput topic content source tags confidence user then
    .ok (saveKnowledge topic content source (tags.getD [])
      (confidence.getD 1) (user.getD "unknown") memoryType now s)
  else
    .error "validation error"

/-- JS falsiness of the `!topic || !content || !source` check in
`/api/save`: the field is absent or the empty string. -/
def jsFalsyStr : Option String → Bool
  | none => true
  | some s => s.isEmpty

/-- The `POST /api/save` handler of `src/index.ts`: respond 400 (here
`none`) only when topic, content or source is missing or empty;
otherwise call `saveKnowledge` with the defaults — no length, enum,
tag-count or confidence-range check. -/
def apiSave (topic content source : Option String)
    (tags : Option (List String)) (confidence : Option ℚ)
    (user : Option String) (memoryType : Option MemoryType)
    (now : ℚ) (s : Store) : Option (ℕ × Store) :=
  if jsFalsyStr topic || jsFalsyStr content || jsFalsyStr source then
    none
  else
    some (saveKnowledge (topic.getD "") (content.getD "") (source.getD "")
      (tags.getD []) (confidence.getD 1) (user.getD "unknown") memoryType
      now s)

/-- Counterexample to C9 as stated: `POST /api/save` with
`confidence = 2` — out of the §3 range `[0, 1]` — is not rejected: the
save succeeds and the stored row carries `confidence = 2`. -/
theorem C9_counterexample_rest_save_unvalidated :
    ¬ ((0 : ℚ) ≤ 2 ∧ (2 : ℚ) ≤ 1) ∧
    apiSave (some "t") (some "c") (some "website") none (some 2) none none
        0 { rows := [], nextId := 1 }
      = some (1, { rows := [newSaveRow "t" "c" "website" [] 2 "unknown"
          MemoryType.pattern 0 1], nextId := 2 }) ∧
    (newSaveRow "t" "c" "website" [] 2 "unknown"
      MemoryType.pattern 0 1).confidence = 2 := by
  refine ⟨?_, rfl, rfl⟩
  rintro ⟨-, h⟩
  norm_num at h

/-- **C9 (amended).** The MCP `save_knowledge` entry point rejects any
input violating the §3 constraints before touching the store, while the
REST `/api/save` endpoint only rejects a missing or empty topic, content
or source and otherwise stores the input without length, enum, tag-count
or confidence-range validation. -/
theorem C9_validation_boundaries :
    (∀ topic content source tags confidence user memoryType now s,
      validSaveInput topic content source tags confidence user = false →
      mcpSaveKnowledge topic content source tags confidence user
        memoryType now s = .error "validation error") ∧
    (∀ topic content source tags confidence user memoryType now s,
      validSaveInput topic content source tags confidence user = true →
      mcpSaveKnowledge topic content source tags confidence user
        memoryType now s
        = .ok (saveKnowledge topic content source (tags.getD [])
            (confidence.getD 1) (user.getD "unknown") memoryType now s)) ∧
    (∀ topic content source tags confidence user memoryType now s,
      (jsFalsyStr topic || jsFalsyStr content || jsFalsyStr source) = true →
      apiSave topic content source tags confidence user memoryType now s
        = none) ∧
    (∀ topic content source tags confidence user memoryType now s,
      (jsFalsyStr topic || jsFalsyStr content || jsFalsyStr source) = false →
      apiSave topic content source tags confidence user memoryType now s
        = some (saveKnowledge (topic.getD "") (content.getD "")
            (source.getD "") (tags.getD []) (confidence.getD 1)
            (user.getD "unknown") memoryType now s)) := by
  refine ⟨?_, ?_, ?_, ?_⟩
  · intro topic content source tags confidence user memoryType now s h
    simp [mcpSaveKnowledge, h]
  · intro topic content source tags confidence user memoryType now s h
    simp [mcpSaveKnowledge, h]
  · intro topic content source tags confidence user memoryType now s h
    simp [apiSave, h]
  · intro topic content source tags confidence user memoryType now s h
    simp [apiSave, h]

/-- Witness for the amended C9: eleven tags exceed the 10-tag limit, the
MCP entry point reports a validation error. -/
theorem C9_validation_boundaries_witness :
    validSaveInput "t" "c" "website"
      (some ["1", "2", "3", "4", "5", "6", "7", "8", "9", "10", "11"])
      none none = false ∧
    mcpSaveKnowledge "t" "c" "website"
      (some ["1", "2", "3", "4", "5", "6", "7", "8", "9", "10", "11"])
      none none none 0 { rows := [], nextId := 1 }
      = .error "validation error" :=
  ⟨by decide, C9_validation_boundaries.1 "t" "c" "website"
    (some ["1", "2", "3", "4", "5", "6", "7", "8", "9", "10", "11"])
    none none none 0 { rows := [], nextId := 1 } (by decide)⟩

/-- JS whitespace (`\s`, `trim`) on the ASCII range: space, tab,
newline, carriage return, vertical tab, form feed. -/
def isJsWs (c : Char) : Bool :=
  c = ' ' || c = '\t' || c = '\n' || c = '\r' ||
  c = Char.ofNat 11 || c = Char.ofNat 12

/-- The separator class of the fallback tokenizer,
`/[\s\-_,;.]+/`. -/
def isSepChar (c : Char) : Bool :=
  isJsWs c || c = '-' || c = '_' || c = ',' || c = ';' || c = '.'

/-- JS `query.trim()` on the ASCII range: strip leading and trailing
whitespace. -/
def trimL (l : List Char) : List Char :=
  ((l.dropWhile isJsWs).reverse.dropWhile isJsWs).reverse

/-- JS `query.split(/[\s\-_,;.]+/)` up to empty tokens: split at every
separator character.  The regex collapses separator runs where this
keeps empty tokens, but the caller filters by length ≥ 3, which erases
that difference. -/
def splitTokens : List Char → List (List Char)
  | [] => [[]]
  | c :: t =>
      if isSepChar c then [] :: splitTokens t
      else
        match splitTokens t with
        | [] => [[c]]
        | w :: ws => (c :: w) :: ws

/-- The token list of the search fallback:
`query.split(/[\s\-_,;.]+/).filter(w => w.length >= 3)`. -/
def fallbackWords (query : String) : List (List Char) :=
  (splitTokens query.data).filter (fun w => decide (3 ≤ w.length))

/-- `f` holds on some suffix of the list (the way `%` lets the rest of a
`LIKE` pattern start at any position). -/
def anySuffix (f : List Char → Bool) : List Char → Bool
  | [] => f []
  | c :: t => f (c :: t) || anySuffix f t

/-- SQL `LIKE` pattern matching with Postgres semantics: `%` matches any
character sequence, `_` any single character, and `\` escapes the next
pattern character so it matches literally; a pattern that ends in a
dangling `\` (an error in Postgres) matches nothing.  First argument is
the pattern, second the string. -/
def likeMatch : List Char → List Char → Bool
  | [], s => s.isEmpty
  | c :: p, s =>
      if c = '%' then
        anySuffix (likeMatch p) s
      else if c = '\\' then
        match p, s with
        | e :: p2, d :: s2 => e == d && likeMatch p2 s2
        | _, _ => false
      else
        match s with
        | [] => false
        | d :: s2 => (if c = '_' then true else c == d) && likeMatch p s2

/-- The fallback's pattern for the token `w`: the JS template
`` `%${w}%` `` interpolates the token raw, so `%` and `\` inside a
token keep their `LIKE` metacharacter meaning.  `fold` is the database
locale's `lower()` (a primitive of the persistence collaborator, spec
§6), which folds the token's characters and leaves the two added `%`
wildcards alone. -/
def ilikePattern (fold : Char → Char) (w : List Char) : List Char :=
  '%' :: (w.map fold ++ ['%'])

/-- SQL `hay ILIKE '%w%'`: fold both sides with the locale's `lower()`
and run `LIKE`.  Concrete examples instantiate `fold` with ASCII
lowercasing. -/
def ilikeContains (fold : Char → Char) (hay : String) (w : List Char) :
    Bool :=
  likeMatch (ilikePattern fold w) (hay.data.map fold)

/-- The correlated subquery of the fallback: how many tokens match the
row's topic or content. -/
def rowMatchCount (fold : Char → Char) (words : List (List Char))
    (r : KnowledgeRow) : ℕ :=
  (words.filter (fun w =>
    ilikeContains fold r.topic w || ilikeContains fold r.content w)).length

/-- The hard conjunctive source/tag filters shared by both search tiers:
`AND source = $i`, `AND tags && $j` (each added only when the filter is
present and, for tags, nonempty). -/
def searchFilters (source : Option String) (tags : Option (List String))
    (r : KnowledgeRow) : Bool :=
  (match source with
    | none => true
    | some src => r.source == src) &&
  (match tags with
    | none => true
    | some tl => if tl.isEmpty then true else r.tags.any tl.contains)

/-- Stable insertion into a list ordered by descending match count. -/
def insertByCountDesc (fold : Char → Char) (words : List (List Char))
    (x : KnowledgeRow) : List KnowledgeRow → List KnowledgeRow
  | [] => [x]
  | y :: t =>
      if rowMatchCount fold words y < rowMatchCount fold words x then
        x :: y :: t
      else y :: insertByCountDesc fold words x t

/-- `ORDER BY rank DESC` of the fallback query, as a stable insertion
sort on the match count: the rank is `count / cardinality(patterns)`
with one fixed denominator, so ordering by count is ordering by rank. -/
def sortByCountDesc (fold : Char → Char) (words : List (List Char))
    (l : List KnowledgeRow) : List KnowledgeRow :=
  l.foldr (insertByCountDesc fold words) []

/-- The fallback tier of `searchKnowledge`: tokenize; empty token list
means empty result; otherwise keep the rows where some token pattern
`ILIKE`-matches topic or content and the source/tag filters hold, order
by match fraction descending, and apply `LIMIT min(limit, 50)`. -/
def fallbackSearch (fold : Char → Char) (rows : List KnowledgeRow)
    (query : String) (source : Option String)
    (tags : Option (List String)) (limit : ℕ) : List KnowledgeRow :=
  let words := fallbackWords query
  if words.isEmpty then []
  else
    let matched := rows.filter (fun r =>
      (words.any (ilikeContains fold r.topic) ||
        words.any (ilikeContains fold r.content))
        && searchFilters source tags r)
    (sortByCountDesc fold words matched).take (min limit 50)

/-- `searchKnowledge` from `db.ts`.  The primary tier is the Postgres
full-text query (`to_tsquery('german', ...)` with `ts_rank` weighting),
a primitive of the persistence collaborator (spec §1/§6); its result
list is the `primary` argument.  The fallback runs only when the
primary tier returned no rows and the trimmed query has at least two
characters; otherwise the primary rows are returned.  (`recordAccess`
is fire-and-forget and does not affect the returned rows.) -/
def searchKnowledge (fold : Char → Char)
    (primary rows : List KnowledgeRow) (query : String)
    (source : Option String) (tags : Option (List String))
    (limit : ℕ) : List KnowledgeRow :=
  if primary.isEmpty && decide (2 ≤ (trimL query.data).length) then
    fallbackSearch fold rows query source tags limit
  else primary

theorem splitTokens_ne_nil (l : List Char) : splitTokens l ≠ [] := by
  cases l with
  | nil => simp [splitTokens]
  | cons c t =>
      rw [splitTokens]
      by_cases h : isSepChar c
      · simp [h]
      · rcases hs : splitTokens t with _ | ⟨w, ws⟩ <;> simp [h, hs]

theorem splitTokens_length_le (l : List Char) :
    ∀ w ∈ splitTokens l, w.length ≤ l.countP (fun c => !(isSepChar c)) := by
  induction l with
  | nil =>
      intro w hw
      simp only [splitTokens, List.mem_singleton] at hw
      subst hw
      simp
  | cons c t ih =>
      intro w hw
      rw [splitTokens] at hw
      by_cases h : isSepChar c
      · rw [if_pos h] at hw
        rw [List.countP_cons, if_neg (by simp [h])]
        rcases List.mem_cons.mp hw with rfl | hw2
        · simp
        · simpa using ih w hw2
      · rw [if_neg h] at hw
        rw [List.countP_cons, if_pos (by simp [h])]
        rcases hs : splitTokens t with _ | ⟨w0, ws⟩
        · exact absurd hs (splitTokens_ne_nil t)
        · rw [hs] at hw
          rcases List.mem_cons.mp hw with rfl | hw2
          · have : w0.length ≤ t.countP (fun c => !(isSepChar c)) :=
              ih w0 (hs ▸ List.mem_cons_self w0 ws)
            simpa using Nat.add_le_add_right this 1
          · have : w.length ≤ t.countP (fun c => !(isSepChar c)) :=
              ih w (hs ▸ List.mem_cons_of_mem w0 hw2)
            omega

theorem countP_dropWhile_of_imp (p q : Char → Bool)
    (h : ∀ c, q c = true → p c = false) (l : List Char) :
    (l.dropWhile q).countP p = l.countP p := by
  induction l with
  | nil => rfl
  | cons a t ih =>
      rw [List.dropWhile_cons]
      by_cases hq : q a = true
      · rw [if_pos hq, ih, List.countP_cons, if_neg (by simp [h a hq])]
        omega
      · rw [if_neg hq]

theorem countP_reverse_eq (p : Char → Bool) (l : List Char) :
    l.reverse.countP p = l.countP p := by
  rw [List.countP_eq_length_filter, List.countP_eq_length_filter,
    List.filter_reverse, List.length_reverse]


theorem isJsWs_imp_not_nonsep (c : Char) (h : isJsWs c = true) :
    (!(isSepChar c)) = false := by
  simp [isSepChar, h]

theorem countP_trimL (l : List Char) :
    (trimL l).countP (fun c => !(isSepChar c))
      = l.countP (fun c => !(isSepChar c)) := by
  unfold trimL
  rw [countP_reverse_eq,
    countP_dropWhile_of_imp _ _ isJsWs_imp_not_nonsep,
    countP_reverse_eq,
    countP_dropWhile_of_imp _ _ isJsWs_imp_not_nonsep]

/-- When the trimmed query has fewer than three non-separator
characters, no token of length ≥ 3 can survive the filter. -/
theorem fallbackWords_eq_nil_of_short (query : String)
    (h : (trimL query.data).length < 3) : fallbackWords query = [] := by
  rw [fallbackWords, List.filter_eq_nil_iff]
  intro w hw
  simp only [decide_eq_true_eq, not_le]
  have h1 := splitTokens_length_le query.data w hw
  have h2 := countP_trimL query.data
  have h3 := List.countP_le_length (l := trimL query.data)
    (p := fun c => !(isSepChar c))
  omega

theorem mem_insertByCountDesc (fold : Char → Char)
    (words : List (List Char)) (x : KnowledgeRow)
    (l : List KnowledgeRow) (z : KnowledgeRow) :
    z ∈ insertByCountDesc fold words x l ↔ z = x ∨ z ∈ l := by
  induction l with
  | nil => simp [insertByCountDesc]
  | cons y t ih =>
      rw [insertByCountDesc]
      by_cases h : rowMatchCount fold words y < rowMatchCount fold words x
      · rw [if_pos h]
        simp [List.mem_cons]
      · rw [if_neg h]
        simp only [List.mem_cons, ih]
        tauto

theorem sorted_insertByCountDesc (fold : Char → Char)
    (words : List (List Char))
    (x : KnowledgeRow) (l : List KnowledgeRow)
    (hl : l.Pairwise (fun a b =>
      rowMatchCount fold words b ≤ rowMatchCount fold words a)) :
    (insertByCountDesc fold words x l).Pairwise (fun a b =>
      rowMatchCount fold words b ≤ rowMatchCount fold words a) := by
  induction l with
  | nil => simp [insertByCountDesc]
  | cons y t ih =>
      rw [List.pairwise_cons] at hl
      rw [insertByCountDesc]
      by_cases h : rowMatchCount fold words y < rowMatchCount fold words x
      · rw [if_pos h, List.pairwise_cons]
        refine ⟨?_, List.pairwise_cons.mpr hl⟩
        intro z hz
        rcases List.mem_cons.mp hz with rfl | hz2
        · exact Nat.le_of_lt h
        · exact (hl.1 z hz2).trans (Nat.le_of_lt h)
      · rw [if_neg h, List.pairwise_cons]
        refine ⟨?_, ih hl.2⟩
        intro z hz
        rcases (mem_insertByCountDesc fold words x t z).mp hz with rfl | hz2
        · exact Nat.le_of_not_lt h
        · exact hl.1 z hz2

theorem mem_sortByCountDesc (fold : Char → Char)
    (words : List (List Char))
    (l : List KnowledgeRow) (z : KnowledgeRow) :
    z ∈ sortByCountDesc fold words l ↔ z ∈ l := by
  induction l with
  | nil => simp [sortByCountDesc]
  | cons y t ih =>
      show z ∈ insertByCountDesc fold words y (sortByCountDesc fold words t)
        ↔ _
      rw [mem_insertByCountDesc, ih, List.mem_cons]

theorem sorted_sortByCountDesc (fold : Char → Char)
    (words : List (List Char))
    (l : List KnowledgeRow) :
    (sortByCountDesc fold words l).Pairwise (fun a b =>
      rowMatchCount fold words b ≤ rowMatchCount fold words a) := by
  induction l with
  | nil => simp [sortByCountDesc]
  | cons y t ih => exact sorted_insertByCountDesc fold words y _ ih

theorem rank_div_mono (fold : Char → Char) (words : List (List Char))
    (a b : KnowledgeRow)
    (h : rowMatchCount fold words b ≤ rowMatchCount fold words a) :
    (rowMatchCount fold words b : ℚ) / (words.length : ℚ)
      ≤ (rowMatchCount fold words a : ℚ) / (words.length : ℚ) := by
  exact div_le_div_of_nonneg_right (by exact_mod_cast h)
    (by positivity)


theorem anySuffix_nil (f : List Char → Bool) : anySuffix f [] = f [] := rfl

theorem anySuffix_cons (f : List Char → Bool) (c : Char) (t : List Char) :
    anySuffix f (c :: t) = (f (c :: t) || anySuffix f t) := rfl

theorem likeMatch_nil_pattern (s : List Char) :
    likeMatch [] s = s.isEmpty := rfl

theorem likeMatch_pct (p s : List Char) :
    likeMatch ('%' :: p) s = anySuffix (likeMatch p) s := by
  conv_lhs => unfold likeMatch
  rw [if_pos rfl]

theorem likeMatch_lit_nil (c : Char) (p : List Char)
    (h1 : c ≠ '%') (h3 : c ≠ '\\') :
    likeMatch (c :: p) [] = false := by
  conv_lhs => unfold likeMatch
  rw [if_neg h1, if_neg h3]

theorem likeMatch_lit_cons (c : Char) (p : List Char) (d : Char)
    (s2 : List Char) (h1 : c ≠ '%') (h3 : c ≠ '\\') (h2 : c ≠ '_') :
    likeMatch (c :: p) (d :: s2) = (c == d && likeMatch p s2) := by
  conv_lhs => unfold likeMatch
  rw [if_neg h1, if_neg h3]
  show ((if c = '_' then true else c == d) && likeMatch p s2) = _
  rw [if_neg h2]

theorem anySuffix_eq_isSubstr (f : List Char → Bool) (p : List Char)
    (hf : ∀ t, f t = p.isPrefixOf t) (s : List Char) :
    anySuffix f s = isSubstr p s := by
  induction s with
  | nil =>
      rw [anySuffix_nil, hf]
      cases p <;> rfl
  | cons c t ih =>
      rw [anySuffix_cons, hf, ih]
      rfl

theorem likeMatch_append_pct (p : List Char)
    (hp : ∀ c ∈ p, ¬(c = '%' ∨ c = '_' ∨ c = '\\')) (s : List Char) :
    likeMatch (p ++ ['%']) s = p.isPrefixOf s := by
  induction p generalizing s with
  | nil =>
      rw [List.nil_append, likeMatch_pct]
      have hone : ∀ u : List Char, anySuffix (likeMatch []) u = true := by
        intro u
        induction u with
        | nil => rfl
        | cons d u2 ihu =>
            rw [anySuffix_cons, ihu, likeMatch_nil_pattern]
            simp
      rw [hone s]
      cases s <;> rfl
  | cons c p2 ih =>
      have hc := hp c (List.mem_cons_self c p2)
      push_neg at hc
      obtain ⟨hc1, hc2, hc3⟩ := hc
      rw [List.cons_append]
      cases s with
      | nil =>
          rw [likeMatch_lit_nil c _ hc1 hc3]
          rfl
      | cons d s2 =>
          rw [likeMatch_lit_cons c _ d s2 hc1 hc3 hc2,
            ih (fun x hx => hp x (List.mem_cons_of_mem c hx)) s2]
          rfl

theorem likeMatch_pct_wrap (p : List Char)
    (hp : ∀ c ∈ p, ¬(c = '%' ∨ c = '_' ∨ c = '\\')) (s : List Char) :
    likeMatch ('%' :: (p ++ ['%'])) s = isSubstr p s := by
  rw [likeMatch_pct]
  exact anySuffix_eq_isSubstr _ p (likeMatch_append_pct p hp) s

/-- For a token whose folded form is free of the `LIKE` metacharacters,
`ILIKE '%w%'` is exactly case-insensitive substring matching. -/
theorem ilikeContains_eq_isSubstr (fold : Char → Char) (w : List Char)
    (h1 : '%' ∉ w.map fold) (h2 : '_' ∉ w.map fold)
    (h3 : '\\' ∉ w.map fold) (hay : String) :
    ilikeContains fold hay w
      = isSubstr (w.map fold) (hay.data.map fold) := by
  rw [ilikeContains, ilikePattern]
  refine likeMatch_pct_wrap (w.map fold) ?_ _
  intro c hc
  push_neg
  refine ⟨?_, ?_, ?_⟩ <;> rintro rfl
  · exact h1 hc
  · exact h2 hc
  · exact h3 hc

/-- A row whose topic contains `"50"` but not the literal string
`"50%"`. -/
def pctRow : KnowledgeRow :=
  { id := 1, topic := "a50b", content := "no digits here",
    source := "website", user_id := "u", tags := [], confidence := 1,
    access_count := 0, last_accessed := none, memory_type := .pattern,
    created_at := 0, updated_at := 0 }

/-- Counterexample to C6 as literally stated: the token `"50%"`
(length 3, `%` is not a separator) survives the split, and the code
interpolates it raw into `ILIKE '%50%%'`, where the `%` is a wildcard —
so the fallback returns `pctRow`, whose topic and content do *not*
contain the token as a case-insensitive substring.  The claim's
"substring-matched" prediction would return no rows. -/
theorem C6_counterexample_percent_token :
    fallbackWords "50%" = [['5', '0', '%']] ∧
    searchKnowledge lowerChar [] [pctRow] "50%" none none 10 = [pctRow] ∧
    rowMatchCount lowerChar [['5', '0', '%']] pctRow = 1 ∧
    isSubstr (lowerL ['5', '0', '%']) (lowerL pctRow.topic.data) = false ∧
    isSubstr (lowerL ['5', '0', '%']) (lowerL pctRow.content.data) = false := by
  refine ⟨by decide, by decide, by decide, by decide, by decide⟩

/-- **C6 (amended: tokens are interpolated raw into the `ILIKE`
pattern).** When the primary full-text tier returns zero rows and the
raw query has at least two characters, `searchKnowledge` returns exactly
the fallback: the query is split on whitespace/punctuation into tokens
of length ≥ 3 (empty result when none survives); every returned row
comes from the store, `ILIKE '%token%'`-matches at least one raw-interpolated
token in topic or content under the locale's case folding `fold`, and
passes the same source/tag filters; the rows are ordered by the
fraction of tokens matched, descending, and capped at `min limit 50`;
for a token whose folded form is free of `%`, `_` and `\`, the `ILIKE`
match is exactly case-insensitive substring matching; and the fallback
is never taken when the primary tier returned at least one row. -/
theorem C6_search_fallback_correct (fold : Char → Char)
    (primary rows : List KnowledgeRow)
    (query : String) (source : Option String) (tags : Option (List String))
    (limit : ℕ) (hprimary : primary = []) (hlen : 2 ≤ query.length) :
    searchKnowledge fold primary rows query source tags limit
      = fallbackSearch fold rows query source tags limit ∧
    (fallbackWords query = [] →
      searchKnowledge fold primary rows query source tags limit = []) ∧
    (∀ r ∈ searchKnowledge fold primary rows query source tags limit,
      r ∈ rows ∧ 1 ≤ rowMatchCount fold (fallbackWords query) r ∧
        searchFilters source tags r = true) ∧
    (searchKnowledge fold primary rows query source tags limit).Pairwise
      (fun a b =>
        (rowMatchCount fold (fallbackWords query) b : ℚ)
            / ((fallbackWords query).length : ℚ)
          ≤ (rowMatchCount fold (fallbackWords query) a : ℚ)
            / ((fallbackWords query).length : ℚ)) ∧
    (searchKnowledge fold primary rows query source tags limit).length
      ≤ min limit 50 ∧
    (∀ w ∈ fallbackWords query, '%' ∉ w.map fold → '_' ∉ w.map fold →
      '\\' ∉ w.map fold → ∀ hay : String,
      ilikeContains fold hay w
        = isSubstr (w.map fold) (hay.data.map fold)) ∧
    (∀ (fold2 : Char → Char) (primary2 rows2 : List KnowledgeRow)
      (query2 : String) (source2 : Option String)
      (tags2 : Option (List String)) (limit2 : ℕ), primary2 ≠ [] →
      searchKnowledge fold2 primary2 rows2 query2 source2 tags2 limit2
        = primary2) := by
  subst hprimary
  have heq : searchKnowledge fold [] rows query source tags limit
      = fallbackSearch fold rows query source tags limit := by
    by_cases htrim : 2 ≤ (trimL query.data).length
    · simp [searchKnowledge, htrim]
    · have hwords : fallbackWords query = [] :=
        fallbackWords_eq_nil_of_short query (by omega)
      have hfb : fallbackSearch fold rows query source tags limit = [] := by
        simp [fallbackSearch, hwords]
      simp [searchKnowledge, htrim, hfb]
  refine ⟨heq, ?_, ?_, ?_, ?_, ?_, ?_⟩
  · intro hwords
    rw [heq]
    simp [fallbackSearch, hwords]
  · intro r hr
    rw [heq] at hr
    simp only [fallbackSearch] at hr
    rcases hw0 : (fallbackWords query).isEmpty with hfalse | htrue
    · rw [hw0, if_neg (by simp)] at hr
      have hr2 : r ∈ sortByCountDesc fold (fallbackWords query)
          (rows.filter (fun r =>
            ((fallbackWords query).any (ilikeContains fold r.topic) ||
              (fallbackWords query).any (ilikeContains fold r.content))
            && searchFilters source tags r)) :=
        (List.take_sublist _ _).subset hr
      rw [mem_sortByCountDesc] at hr2
      obtain ⟨hrows, hpred⟩ := List.mem_filter.mp hr2
      rw [Bool.and_eq_true] at hpred
      obtain ⟨hany, hfilters⟩ := hpred
      refine ⟨hrows, ?_, hfilters⟩
      have hwit : ∃ w ∈ fallbackWords query,
          (ilikeContains fold r.topic w ||
            ilikeContains fold r.content w) = true := by
        rcases (Bool.or_eq_true _ _).mp hany with h | h
        · obtain ⟨w, hw, hm⟩ := List.any_eq_true.mp h
          exact ⟨w, hw, by simp [hm]⟩
        · obtain ⟨w, hw, hm⟩ := List.any_eq_true.mp h
          exact ⟨w, hw, by simp [hm]⟩
      obtain ⟨w, hw, hm⟩ := hwit
      have hmem : w ∈ (fallbackWords query).filter (fun w =>
          ilikeContains fold r.topic w || ilikeContains fold r.content w) :=
        List.mem_filter.mpr ⟨hw, hm⟩
      exact List.length_pos.mpr (List.ne_nil_of_mem hmem)
    · rw [hw0, if_pos rfl] at hr
      exact absurd hr (List.not_mem_nil r)
  · rw [heq]
    simp only [fallbackSearch]
    rcases hw0 : (fallbackWords query).isEmpty with hfalse | htrue
    · rw [if_neg (by simp)]
      exact ((sorted_sortByCountDesc fold _ _).sublist
        (List.take_sublist _ _)).imp
        (fun h => rank_div_mono fold _ _ _ h)
    · rw [if_pos rfl]
      exact List.Pairwise.nil
  · rw [heq]
    simp only [fallbackSearch]
    rcases hw0 : (fallbackWords query).isEmpty with hfalse | htrue
    · rw [if_neg (by simp)]
      exact (List.length_take_le _ _)
    · rw [if_pos rfl]
      simp
  · intro w _ h1 h2 h3 hay
    exact ilikeContains_eq_isSubstr fold w h1 h2 h3 hay
  · intro fold2 primary2 rows2 query2 source2 tags2 limit2 hp2
    rcases primary2 with _ | ⟨a, t⟩
    · exact absurd rfl hp2
    · simp [searchKnowledge]

/-- Witness for the amended C6 on a concrete two-row store, the query
`"pricing stripe"` and ASCII folding. -/
theorem C6_search_fallback_correct_witness :
    ([] : List KnowledgeRow) = [] ∧
    2 ≤ ("pricing stripe" : String).length ∧
    (searchKnowledge lowerChar [] [mergeRowA, mergeRowB] "pricing stripe"
      none none 10).length ≤ min 10 50 :=
  ⟨rfl, by decide, (C6_search_fallback_correct lowerChar []
    [mergeRowA, mergeRowB] "pricing stripe" none none 10 rfl
    (by decide)).2.2.2.2.1⟩
